import Mathlib

/- Verification development for pybuildhelper (src/pybuildhelper/build_helper.py).

   The program is path-and-string bookkeeping around two external tools, so the
   embedding models POSIX path strings as lists of characters (the path
   separator is a slash), directory trees as a mutual inductive, and the two
   external subprocesses plus the file system queries of the pack stage as
   parameters of the model.  Every definition follows the corresponding Python
   code; line numbers refer to src/pybuildhelper/build_helper.py. -/

abbrev Str := List Char

/-- Whitespace characters removed by the Python str.strip method (ASCII part). -/
def isSpaceB (c : Char) : Bool :=
  c = ' ' || c = '\t' || c = '\n' || c = '\r' || c = '\x0b' || c = '\x0c'

/-- Python str.strip(): remove leading and trailing whitespace. -/
def pyStrip (s : Str) : Str :=
  ((s.dropWhile isSpaceB).reverse.dropWhile isSpaceB).reverse

/-- Python str.split(sep) for a one-character separator: splits at every
occurrence and keeps empty pieces, so the result is always nonempty. -/
def pySplit (sep : Char) : Str → List Str
  | [] => [[]]
  | c :: cs =>
    if c = sep then [] :: pySplit sep cs
    else
      match pySplit sep cs with
      | [] => [[c]]
      | r :: rs => (c :: r) :: rs

/-- Python line.split(pat)[0]: the text before the first occurrence of pat
(the whole string when pat does not occur). -/
def beforeMarker (pat : Str) : Str → Str
  | [] => []
  | c :: cs => if pat.isPrefixOf (c :: cs) then [] else c :: beforeMarker pat cs

/-- Fuel-indexed worker for Python str.replace: scan left to right, replacing
each non-overlapping occurrence of pat.  Fuel bounds the number of scanning
steps; each step consumes at least one character, so s.length fuel is enough. -/
def pyReplaceAux (pat rep : Str) : Nat → Str → Str
  | 0, s => s
  | _, [] => []
  | f + 1, c :: cs =>
    if pat ≠ [] ∧ pat.isPrefixOf (c :: cs) then
      rep ++ pyReplaceAux pat rep f ((c :: cs).drop pat.length)
    else
      c :: pyReplaceAux pat rep f cs

/-- Python s.replace(pat, to) for a nonempty pattern. -/
def pyReplace (pat rep s : Str) : Str := pyReplaceAux pat rep s.length s

/-- Join path components with slashes (no leading or trailing separator). -/
def interSlash : List Str → Str
  | [] => []
  | [x] => x
  | x :: y :: xs => x ++ '/' :: interSlash (y :: xs)

/-- os.path.isabs. -/
def pyIsAbs (p : Str) : Bool := ['/'].isPrefixOf p

/-- posixpath.join for two operands. -/
def pyJoin (a b : Str) : Str :=
  if pyIsAbs b then b
  else if a = [] ∨ a.getLast? = some '/' then a ++ b
  else a ++ '/' :: b

/-- One step of posixpath.normpath's component loop. -/
def normStep (initialSlashes : Nat) (acc : List Str) (comp : Str) : List Str :=
  if comp = [] ∨ comp = ['.'] then acc
  else if comp ≠ ['.', '.'] ∨ (initialSlashes = 0 ∧ acc = []) ∨
          acc.getLast? = some ['.', '.'] then
    acc ++ [comp]
  else acc.dropLast

/-- posixpath.normpath. -/
def pyNormpath (p : Str) : Str :=
  if p = [] then ['.']
  else
    let initialSlashes : Nat :=
      if ['/', '/'].isPrefixOf p ∧ ¬ ['/', '/', '/'].isPrefixOf p then 2
      else if ['/'].isPrefixOf p then 1 else 0
    let newComps := (pySplit '/' p).foldl (normStep initialSlashes) []
    let res := List.replicate initialSlashes '/' ++ interSlash newComps
    if res = [] then ['.'] else res

/-- posixpath.abspath, with the current working directory passed explicitly. -/
def pyAbspath (cwd p : Str) : Str :=
  pyNormpath (if pyIsAbs p then p else pyJoin cwd p)

/-- Length of the common leading run of two component lists
(os.path.commonprefix on split paths). -/
def commonLen : List Str → List Str → Nat
  | x :: xs, y :: ys => if x = y then commonLen xs ys + 1 else 0
  | _, _ => 0

/-- posixpath.relpath(path, start); both operands are made absolute against cwd. -/
def pyRelpath (cwd path start : Str) : Str :=
  let pl := (pySplit '/' (pyAbspath cwd path)).filter (fun x => x ≠ [])
  let sl := (pySplit '/' (pyAbspath cwd start)).filter (fun x => x ≠ [])
  let i := commonLen sl pl
  let rel := List.replicate (sl.length - i) ['.', '.'] ++ pl.drop i
  if rel = [] then ['.'] else interSlash rel

/-- posixpath.basename: the part after the last slash. -/
def pyBasename (p : Str) : Str := (p.reverse.takeWhile (fun c => c ≠ '/')).reverse

/-- posixpath.dirname: the part before the last slash, with trailing slashes
stripped unless the result consists only of slashes. -/
def pyDirname (p : Str) : Str :=
  let baseLen := (p.reverse.takeWhile (fun c => c ≠ '/')).length
  let head := p.take (p.length - baseLen)
  if head ≠ [] ∧ head.any (fun c => c ≠ '/') then
    (head.reverse.dropWhile (fun c => c = '/')).reverse
  else head

/-- The root (first component) of posixpath.splitext: the path with its final
extension removed.  The extension starts at the last dot of the basename,
ignoring any leading dots of the basename. -/
def pySplitextRoot (p : Str) : Str :=
  let base := (p.reverse.takeWhile (fun c => c ≠ '/')).reverse
  let lead := (base.takeWhile (fun c => c = '.')).length
  let rest := base.drop lead
  let extLen := (rest.reverse.takeWhile (fun c => c ≠ '.')).length
  if extLen = rest.length then p
  else p.take (p.length - extLen - 1)

/- ------------------------------------------------------------------ -/
/- The directory tree under the compile stage's source root.          -/
/- ------------------------------------------------------------------ -/

mutual
inductive FSTree where
  | file : FSTree
  | dir : EntryList → FSTree
inductive EntryList where
  | nil : EntryList
  | cons : Str → FSTree → EntryList → EntryList
end

def FSTree.isDirNode : FSTree → Bool
  | .dir _ => true
  | .file => false

def entryNames : EntryList → List Str
  | .nil => []
  | .cons n _ rest => n :: entryNames rest

/-- Names of the plain-file entries of a directory, in listing order. -/
def entryFiles : EntryList → List Str
  | .nil => []
  | .cons n t rest =>
    (match t with
     | .file => [n]
     | .dir _ => []) ++ entryFiles rest

def entryLookup (nm : Str) : EntryList → Option FSTree
  | .nil => none
  | .cons n t rest => if n = nm then some t else entryLookup nm rest

/- Well-formedness of a real directory tree: entry names are nonempty,
contain no separator, and are unique within each directory. -/
mutual
def wfB : FSTree → Bool
  | .file => true
  | .dir es => decide ((entryNames es).Nodup) && wfEntries es
def wfEntries : EntryList → Bool
  | .nil => true
  | .cons n t rest => (decide (n ≠ []) && decide ('/' ∉ n)) && wfB t && wfEntries rest
end

/- os.walk from the source root (top-down): one group per directory, the
group's root given as the list of name components from the root (so the root
itself is the empty list), paired with the names of the plain files there. -/
mutual
def walkFrom (p : List Str) : FSTree → List (List Str × List Str)
  | .file => []
  | .dir es => (p, entryFiles es) :: walkChildren p es
def walkChildren (p : List Str) : EntryList → List (List Str × List Str)
  | .nil => []
  | .cons n t rest =>
    (match t with
     | .dir _ => walkFrom (p ++ [n]) t
     | .file => []) ++ walkChildren p rest
end

/-- os.path.relpath of a point under the root, from its component list;
the root itself renders as a dot, like relpath(root, root). -/
def render : List Str → Str
  | [] => ['.']
  | c :: cs => interSlash (c :: cs)

/-- Resolve a path inside the tree and test for a directory. -/
def navigate : FSTree → List Str → Bool
  | t, [] => t.isDirNode
  | .file, _ :: _ => false
  | .dir es, c :: cs =>
    match entryLookup c es with
    | some t2 => navigate t2 cs
    | none => false

/-- Model of os.path.isdir(os.path.join(source_dir, ex)): resolve ex against
the tree root; empty and single-dot components are POSIX no-ops. -/
def isdirB (t : FSTree) (path : Str) : Bool :=
  navigate t ((pySplit '/' path).filter (fun c => ¬ (c = [] ∨ c = ['.'])))

def endsWithPy (f : Str) : Bool := ['.', 'p', 'y'].isSuffixOf f

/-- Directory-pruning test of _find_py_files (lines 42-48): the walk group is
skipped when its root, relative to the source dir, equals or starts with an
exclusion entry that names an existing directory. -/
def prunedGroup (t : FSTree) (exclude : List Str) (relRoot : Str) : Bool :=
  exclude.any (fun ex => isdirB t ex && (ex.isPrefixOf relRoot || relRoot == ex))

/-- File-level exclusion test of _find_py_files (lines 56-59). -/
def fileExcluded (exclude : List Str) (relPath : Str) : Bool :=
  exclude.any (fun ex => relPath == ex || (ex ++ ['/']).isPrefixOf relPath)

/-- _find_py_files (lines 24-62).  Result paths are represented relative to
source_dir: the code stores os.path.join(root, file) and every later use
takes os.path.relpath against source_dir again, so the absolute prefix
cancels.  pyGroup is the body of the walk loop for one group. -/
def pyGroup (t : FSTree) (exclude : List Str) (g : List Str × List Str) : List Str :=
  if prunedGroup t exclude (render g.1) then []
  else
    g.2.filterMap (fun f =>
      if endsWithPy f then
        if fileExcluded exclude (render (g.1 ++ [f])) then none
        else some (render (g.1 ++ [f]))
      else none)

def find_py_files (t : FSTree) (exclude : List Str) : List Str :=
  (walkFrom [] t).flatMap (pyGroup t exclude)

/- ------------------------------------------------------------------ -/
/- Stage Runner A: compile (lines 157-215).                           -/
/- ------------------------------------------------------------------ -/

/-- Module-name derivation of compile (lines 192-193):
rel_path.replace(".py", "").replace(os.sep, ".").  Note that str.replace
removes every occurrence of ".py", not only a trailing extension. -/
def compileModuleName (rel : Str) : Str :=
  pyReplace ['/'] ['.'] (pyReplace ['.', 'p', 'y'] [] rel)

/-- The extension targets built by compile (lines 180-194): the Path Filter
result, minus the entry file when one is given (list.remove drops the first
occurrence), each file paired with its module name. -/
def compileTargets (t : FSTree) (main : Option Str) (exclude : List Str) :
    List (Str × Str) :=
  let py := find_py_files t exclude
  let py2 :=
    match main with
    | some m => if m ≠ [] then (if m ∈ py then py.erase m else py) else py
    | none => py
  py2.map (fun f => (compileModuleName f, f))

/-- Observable actions of one compile run, in program order. -/
inductive CEvent where
  | cleanDir : Str → CEvent
  | runCython : List (Str × Str) → CEvent
  | copyMain : Str → CEvent
  | copyData : List Str → CEvent
deriving DecidableEq

/-- compile (lines 157-215) as its trace of observable actions: reset both
directories, hand the whole batch of extension targets to Cython, then copy
the entry file (only when one was given and truthy), then the data files. -/
def compileEvents (t : FSTree) (main : Option Str) (data : Option (List Str))
    (exclude : List Str) (intermediateDir distDir : Str) : List CEvent :=
  [CEvent.cleanDir intermediateDir, CEvent.cleanDir distDir,
   CEvent.runCython (compileTargets t main exclude)] ++
  (match main with
   | some m => if m ≠ [] then [CEvent.copyMain m] else []
   | none => []) ++
  [CEvent.copyData (data.getD [])]

/- ------------------------------------------------------------------ -/
/- Dependency Extractor (lines 129-154).                              -/
/- ------------------------------------------------------------------ -/

/-- Python exceptions that the modelled code can raise. -/
inductive PyErr where
  | fileNotFound : Str → PyErr
  | indexError : PyErr
  | recursionError : PyErr
deriving DecidableEq

/-- The manifest environment: file path to list of lines (without
terminators), or none when the file does not exist. -/
abbrev ReqEnv := Str → Option (List Str)

/-- The line loop of _get_hidden_imports_from_requirements (lines 143-153),
with the recursive call on another file passed in as subFile. -/
def extractLinesWith (subFile : Str → Except PyErr (List Str)) :
    List Str → Except PyErr (List Str)
  | [] => .ok []
  | l :: ls =>
    let s := pyStrip l
    if ['-', 'r'].isPrefixOf s then
      match (pySplit ' ' s).get? 1 with
      | none => .error .indexError
      | some sub =>
        match subFile sub with
        | .error e => .error e
        | .ok subs =>
          match extractLinesWith subFile ls with
          | .error e => .error e
          | .ok rest => .ok (subs ++ rest)
    else if s = [] then extractLinesWith subFile ls
    else
      match extractLinesWith subFile ls with
      | .error e => .error e
      | .ok rest => .ok (beforeMarker ['=', '='] s :: rest)

/-- _get_hidden_imports_from_requirements (lines 129-154).  The fuel models
the Python call stack: the code has no cycle detection, so a recursion chain
deeper than the interpreter's limit dies with a RecursionError. -/
def extractFile (env : ReqEnv) : Nat → Str → Except PyErr (List Str)
  | 0, _ => .error .recursionError
  | fuel + 1, path =>
    match env path with
    | none => .error (.fileNotFound path)
    | some lines => extractLinesWith (extractFile env fuel) lines

/-- The CPython default recursion limit, the depth budget of extractFile. -/
def recursionLimit : Nat := 1000

deriving instance DecidableEq for Except

/- ------------------------------------------------------------------ -/
/- Stage Runner B: pack (lines 218-352).                              -/
/- ------------------------------------------------------------------ -/

/-- The arguments of pack (lines 218-229). -/
structure PackArgs where
  main_file : Str
  data_files : Option (List Str)
  exclude_files : Option (List Str)
  hidden_imports : Option (List Str)
  hidden_imports_from_requirements : Option Str
  executable_name : Option Str
  onefile : Bool
  source_dir : Str
  intermediate_dir : Str
  dist_dir : Str

/-- The outside world as pack queries it: manifest files, glob matching,
file-system predicates, os.walk on absolute paths, and the exit status the
PyInstaller subprocess would return for a given command line. -/
structure PackEnv where
  reqFiles : ReqEnv
  glob : Str → List Str
  fsExists : Str → Bool
  fsIsdir : Str → Bool
  fsWalk : Str → List (Str × List Str)
  procExit : List Str → Nat

/-- Python truthiness of an optional list (None and the empty list are falsy). -/
def truthyList : Option (List Str) → Bool
  | some (_ :: _) => true
  | _ => false

/-- Python truthiness of an optional string (None and the empty string are falsy). -/
def truthyStr : Option Str → Bool
  | some (_ :: _) => true
  | _ => false

def binaryExts : List Str := [("*.pyd".data), ("*.so".data), ("*.dylib".data)]

/-- _find_binary_files (lines 65-98): glob each binary extension recursively
under the (absolute) source dir, drop matches under an exclusion entry by a
normalized-prefix test, and pair each match with its directory relative to
the source dir. -/
def find_binary_files (env : PackEnv) (cwd source_dir : Str)
    (exclude : List Str) : List (Str × Str) :=
  binaryExts.flatMap (fun ext =>
    (env.glob (pyJoin (pyJoin source_dir ['*', '*']) ext)).filterMap
      (fun filepath =>
        let rel_path := pyRelpath cwd filepath source_dir
        if exclude.any (fun ex => (pyNormpath ex).isPrefixOf (pyNormpath rel_path)) then
          none
        else
          let rel_dir := pyRelpath cwd (pyDirname filepath) source_dir
          let dest_dir := if rel_dir ≠ ['.'] then rel_dir else ['.']
          some (filepath, dest_dir)))

/-- Default executable name (lines 254-255): the basename of the entry file
with its extension stripped, used when the given name is None or empty. -/
def execNameOf (a : PackArgs) : Str :=
  match a.executable_name with
  | some e => if e ≠ [] then e else pySplitextRoot (pyBasename a.main_file)
  | none => pySplitextRoot (pyBasename a.main_file)

/-- The data-file section of the command line (lines 283-312). -/
def dataFlags (a : PackArgs) (env : PackEnv) (cwd : Str) : List Str :=
  let absSource := pyAbspath cwd a.source_dir
  let absInter := pyAbspath cwd a.intermediate_dir
  (a.data_files.getD []).flatMap (fun data =>
    let src_path := pyJoin absSource data
    if env.fsExists src_path then
      let rel_path := pyRelpath cwd src_path absInter
      let dest_path := pyDirname data
      if env.fsIsdir src_path then
        (env.fsWalk src_path).flatMap (fun g =>
          g.2.flatMap (fun file =>
            let full_path := pyJoin g.1 file
            let rel_file_path := pyRelpath cwd full_path absInter
            let file_dest_path := pyRelpath cwd (pyDirname full_path) absSource
            [("--add-data".data), rel_file_path ++ ':' :: file_dest_path]))
      else [("--add-data".data), rel_path ++ ':' :: dest_path]
    else [])

/-- Module-name derivation of pack's exclusion flags (lines 316-320):
os.path.splitext(ex)[0] with separators replaced by dots. -/
def packExcludeModuleName (ex : Str) : Str :=
  pyReplace ['/'] ['.'] (pySplitextRoot ex)

/-- The exclusion section of the command line (lines 315-321). -/
def excludeFlags (a : PackArgs) : List Str :=
  (a.exclude_files.getD []).flatMap
    (fun ex => [("--exclude-module".data), packExcludeModuleName ex])

/-- The hidden-import section of the command line (lines 323-332): a truthy
explicit list wins; otherwise a truthy manifest path is read through the
Dependency Extractor, whose exceptions propagate. -/
def hiddenFlagsE (a : PackArgs) (env : PackEnv) : Except PyErr (List Str) :=
  if truthyList a.hidden_imports then
    .ok ((a.hidden_imports.getD []).flatMap
      (fun m => [("--hidden-import".data), m]))
  else if truthyStr a.hidden_imports_from_requirements then
    match extractFile env.reqFiles recursionLimit
        (a.hidden_imports_from_requirements.getD []) with
    | .error e => .error e
    | .ok mods => .ok (mods.flatMap (fun m => [("--hidden-import".data), m]))
  else .ok []

/-- The full PyInstaller command line assembled by pack (lines 253-336), or
the exception raised while assembling it.  cwd is the working directory at
call time; every os.path.abspath up to line 336 runs before the chdir of
line 341, hence against this cwd. -/
def packCmd (a : PackArgs) (env : PackEnv) (cwd : Str) : Except PyErr (List Str) :=
  let absSource := pyAbspath cwd a.source_dir
  let absInter := pyAbspath cwd a.intermediate_dir
  let base := [("pyinstaller".data), ("--name".data), execNameOf a,
               ("--distpath".data), pyAbspath cwd a.dist_dir,
               ("--workpath".data), absInter, ("--specpath".data), absInter]
  let mode := if a.onefile then [("--onefile".data)] else [("--onedir".data)]
  let bins := (find_binary_files env cwd absSource (a.exclude_files.getD [])).flatMap
    (fun pr => [("--add-binary".data), pr.1 ++ ':' :: pr.2])
  let datas := dataFlags a env cwd
  let excls := excludeFlags a
  match hiddenFlagsE a env with
  | .error e => .error e
  | .ok hids =>
    let relMain := pyRelpath cwd (pyJoin absSource a.main_file) absInter
    .ok (base ++ mode ++ bins ++ datas ++ excls ++ hids ++ [relMain])

/-- Observable actions of one pack run, in program order. -/
inductive PEvent where
  | cleanDir : Str → PEvent
  | makeDirs : Str → PEvent
  | chdir : Str → PEvent
  | runProc : List Str → PEvent
  | reportFailure : Nat → PEvent
deriving DecidableEq

/-- How one pack invocation ends: a normal return, sys.exit(1) after a
failing bundler run, or a propagating exception. -/
inductive POutcome where
  | ok : POutcome
  | sysExit : Nat → POutcome
  | raised : PyErr → POutcome
deriving DecidableEq

/-- pack (lines 218-352): outcome, working directory after the call, and the
trace of observable actions.  os.chdir(p) is modelled as resolving p against
the current working directory; os.getcwd() at line 339 reads the cwd the
call started with, and the finally block of line 351 runs on both exit paths
of the try.  An exception from command assembly (in particular from the
Dependency Extractor) is raised before the chdir of line 341, so it leaves
the working directory untouched and the bundler never runs. -/
def packRun (a : PackArgs) (env : PackEnv) (cwd : Str) :
    POutcome × Str × List PEvent :=
  let ev0 := [PEvent.cleanDir a.intermediate_dir, PEvent.cleanDir a.dist_dir]
  match packCmd a env cwd with
  | .error e => (.raised e, cwd, ev0)
  | .ok cmd =>
    let originalDir := cwd
    let cwd1 := pyAbspath cwd a.intermediate_dir
    let code := env.procExit cmd
    let cwd2 := pyAbspath cwd1 originalDir
    if code ≠ 0 then
      (.sysExit 1, cwd2,
       ev0 ++ [PEvent.makeDirs a.intermediate_dir, PEvent.chdir cwd1,
               PEvent.runProc cmd, PEvent.reportFailure code, PEvent.chdir cwd2])
    else
      (.ok, cwd2,
       ev0 ++ [PEvent.makeDirs a.intermediate_dir, PEvent.chdir cwd1,
               PEvent.runProc cmd, PEvent.chdir cwd2])

/- ------------------------------------------------------------------ -/
/- Small derived predicates and concrete objects used in statements.  -/
/- ------------------------------------------------------------------ -/

def isRunProc : PEvent → Bool
  | .runProc _ => true
  | _ => false

def isCleanEvent : PEvent → Bool
  | .cleanDir _ => true
  | _ => false

/-- The package names a list of manifest lines contributes directly (no
recursive includes): each nonblank stripped line, cut before the first
version-equality marker. -/
def reqNames (xs : List Str) : List Str :=
  xs.filterMap (fun l =>
    let s := pyStrip l
    if s = [] then none else some (beforeMarker ['=', '='] s))

/-- A root containing the directory sk (holding c.py) and the file skx.py. -/
def exTree1 : FSTree :=
  .dir (.cons ("sk".data) (.dir (.cons ("c.py".data) .file .nil))
    (.cons ("skx.py".data) .file .nil))

/-- A root containing the single file x.pyz.py. -/
def exTree2 : FSTree := .dir (.cons ("x.pyz.py".data) .file .nil)

/-- The spec's scenario root: a.py, b.py and skip/c.py. -/
def exTree3 : FSTree :=
  .dir (.cons ("a.py".data) .file
    (.cons ("b.py".data) .file
      (.cons ("skip".data) (.dir (.cons ("c.py".data) .file .nil)) .nil)))

/-- Baseline pack arguments for concrete runs. -/
def packArgs0 : PackArgs :=
  { main_file := "m.py".data, data_files := none, exclude_files := none,
    hidden_imports := none, hidden_imports_from_requirements := none,
    executable_name := some ("app".data), onefile := false,
    source_dir := ['.'], intermediate_dir := "b".data, dist_dir := "d".data }

/-- A pack environment with an empty world and a failing bundler. -/
def packEnv0 : PackEnv :=
  { reqFiles := fun _ => none, glob := fun _ => [], fsExists := fun _ => false,
    fsIsdir := fun _ => false, fsWalk := fun _ => [], procExit := fun _ => 1 }

/-- A canonical absolute working directory for concrete runs. -/
def cwdW : Str := "/w".data

/-- The command line packArgs0 assembles in packEnv0 from cwdW. -/
def cmd0 : List Str :=
  match packCmd packArgs0 packEnv0 cwdW with
  | .ok c => c
  | .error _ => []

/-- Pack arguments with an explicit empty hidden-import list and a manifest. -/
def packArgsC4 : PackArgs :=
  { packArgs0 with hidden_imports := some [],
                   hidden_imports_from_requirements := some ("r.txt".data) }

/-- Pack arguments with a nonempty explicit list and a manifest. -/
def packArgsC4w : PackArgs :=
  { packArgs0 with hidden_imports := some [("numpy".data)],
                   hidden_imports_from_requirements := some ("r.txt".data) }

/-- An environment whose manifest r.txt declares numpy. -/
def packEnvNumpy : PackEnv :=
  { packEnv0 with
    reqFiles := fun p => if p = "r.txt".data then some [("numpy".data)] else none }

/-- An environment whose manifest r.txt declares pandas. -/
def packEnvPandas : PackEnv :=
  { packEnv0 with
    reqFiles := fun p => if p = "r.txt".data then some [("pandas".data)] else none }

/-- Pack arguments asking for hidden imports from a manifest. -/
def packArgsC8 : PackArgs :=
  { packArgs0 with hidden_imports_from_requirements := some ("r.txt".data) }

/-- Manifest world of the spec's scenario: the given file holds numpy==1.21
and a recursive include of extra.txt, which holds requests. -/
def reqEnvC7 : ReqEnv := fun p =>
  if p = "req.txt".data then some [("numpy==1.21".data), ("-r extra.txt".data)]
  else if p = "extra.txt".data then some [("requests".data)]
  else none

/-- Manifest world where m.txt includes a missing file before a bare dash-r
line. -/
def reqEnvC10a : ReqEnv := fun p =>
  if p = "m.txt".data then some [("-r nope".data), ("-r".data)] else none

/-- Manifest world where m.txt holds one package line and then a bare dash-r
line. -/
def reqEnvC10b : ReqEnv := fun p =>
  if p = "m.txt".data then some [("numpy==1.0".data), ("-r".data)] else none

/- ------------------------------------------------------------------ -/
/- Claim C1.                                                          -/
/- ------------------------------------------------------------------ -/

/-- Claim C1, counterexample: with root exTree1 and exclusion list [sk], the
fragment sk names an existing directory, yet the file skx.py — whose path
relative to the root starts with sk — is returned by the Path Filter.  The
claim as stated (plain string prefix) is therefore false. -/
theorem c1_counterexample :
    ("sk".data) ∈ [("sk".data)] ∧
    isdirB exTree1 ("sk".data) = true ∧
    find_py_files exTree1 [("sk".data)] = [("skx.py".data)] ∧
    ("sk".data).isPrefixOf ("skx.py".data) = true := by decide

/-- Claim C1 as amended: for every exclusion fragment E that names an
existing directory under the root, no returned file's relative path equals E
or starts with E followed by the path separator (files merely sharing E as a
string prefix can still be returned). -/
theorem c1_amended (t : FSTree) (exclude : List Str) (ex f : Str)
    (hex : ex ∈ exclude) (hdir : isdirB t ex = true)
    (hf : f ∈ find_py_files t exclude) :
    f ≠ ex ∧ (ex ++ ['/']).isPrefixOf f = false := by
  unfold find_py_files at hf
  rw [List.mem_flatMap] at hf
  obtain ⟨g, hgmem, hfg⟩ := hf
  unfold pyGroup at hfg
  cases hb : prunedGroup t exclude (render g.1) with
  | true => simp [hb] at hfg
  | false =>
    simp only [hb, Bool.false_eq_true, if_false] at hfg
    rw [List.mem_filterMap] at hfg
    obtain ⟨x, hx, hxe⟩ := hfg
    cases hpy : endsWithPy x with
    | false => simp [hpy] at hxe
    | true =>
      simp only [hpy, if_true] at hxe
      cases hfe : fileExcluded exclude (render (g.1 ++ [x])) with
      | true => simp [hfe] at hxe
      | false =>
        simp only [hfe, Bool.false_eq_true, if_false, Option.some.injEq] at hxe
        subst hxe
        unfold fileExcluded at hfe
        rw [List.any_eq_false] at hfe
        have h2 := hfe ex hex
        simp only [Bool.or_eq_true, not_or, beq_iff_eq, Bool.not_eq_true] at h2
        exact ⟨h2.1, h2.2⟩

/-- Witness for c1_amended at the concrete root exTree1. -/
theorem c1_amended_witness :
    ("skx.py".data) ≠ ("sk".data) ∧
    (("sk".data) ++ ['/']).isPrefixOf ("skx.py".data) = false :=
  c1_amended exTree1 [("sk".data)] ("sk".data) ("skx.py".data)
    (by decide) (by decide) (by decide)

/- ------------------------------------------------------------------ -/
/- Claim C5.                                                          -/
/- ------------------------------------------------------------------ -/

/-- Claim C5: on every exit path of pack — normal return, bundler failure,
or an exception raised while assembling the command — the working directory
after the call equals the (canonical absolute) working directory before it. -/
theorem c5_cwd_restored (a : PackArgs) (env : PackEnv) (cwd : Str)
    (habs : pyIsAbs cwd = true) (hnorm : pyNormpath cwd = cwd) :
    (packRun a env cwd).2.1 = cwd := by
  unfold packRun
  cases packCmd a env cwd with
  | error e => rfl
  | ok cmd =>
    have hres : pyAbspath (pyAbspath cwd a.intermediate_dir) cwd = cwd := by
      unfold pyAbspath
      rw [if_pos habs, hnorm]
    by_cases h : env.procExit cmd ≠ 0 <;> simp [h, hres]

/-- Witness for c5_cwd_restored: a concrete failing run from /w. -/
theorem c5_cwd_restored_witness : (packRun packArgs0 packEnv0 cwdW).2.1 = cwdW :=
  c5_cwd_restored packArgs0 packEnv0 cwdW (by decide) (by decide)

/- ------------------------------------------------------------------ -/
/- Claim C6.                                                          -/
/- ------------------------------------------------------------------ -/

/-- Claim C6: when the bundler exits with a non-zero status, pack reports
the failure and ends the whole process with sys.exit(1); the trace contains
exactly one bundler invocation (no retry) and nothing after it deletes or
resets a directory (no rollback). -/
theorem c6_bundler_failure (a : PackArgs) (env : PackEnv) (cwd : Str)
    (cmd : List Str) (hc : packCmd a env cwd = .ok cmd)
    (hx : env.procExit cmd ≠ 0) :
    (packRun a env cwd).1 = .sysExit 1 ∧
    PEvent.reportFailure (env.procExit cmd) ∈ (packRun a env cwd).2.2 ∧
    ((packRun a env cwd).2.2.countP isRunProc) = 1 ∧
    ∃ k l, (packRun a env cwd).2.2 = k ++ PEvent.runProc cmd :: l ∧
      ∀ e ∈ l, isCleanEvent e = false := by
  have hrun : packRun a env cwd =
      (POutcome.sysExit 1, pyAbspath (pyAbspath cwd a.intermediate_dir) cwd,
       [PEvent.cleanDir a.intermediate_dir, PEvent.cleanDir a.dist_dir,
        PEvent.makeDirs a.intermediate_dir,
        PEvent.chdir (pyAbspath cwd a.intermediate_dir), PEvent.runProc cmd,
        PEvent.reportFailure (env.procExit cmd),
        PEvent.chdir (pyAbspath (pyAbspath cwd a.intermediate_dir) cwd)]) := by
    unfold packRun
    rw [hc]
    dsimp only
    rw [if_pos hx]
    rfl
  rw [hrun]
  refine ⟨rfl, by simp, ?_, ?_⟩
  · simp [List.countP_cons, isRunProc]
  · refine ⟨[PEvent.cleanDir a.intermediate_dir, PEvent.cleanDir a.dist_dir,
      PEvent.makeDirs a.intermediate_dir,
      PEvent.chdir (pyAbspath cwd a.intermediate_dir)],
      [PEvent.reportFailure (env.procExit cmd),
       PEvent.chdir (pyAbspath (pyAbspath cwd a.intermediate_dir) cwd)],
      by simp, ?_⟩
    intro e he
    rcases List.mem_cons.mp he with h | h
    · subst h; rfl
    · rw [List.mem_singleton] at h
      subst h; rfl

/-- Witness for c6_bundler_failure: the concrete failing run ends in
sys.exit(1). -/
theorem c6_bundler_failure_witness :
    (packRun packArgs0 packEnv0 cwdW).1 = .sysExit 1 :=
  (c6_bundler_failure packArgs0 packEnv0 cwdW cmd0 (by decide) (by decide)).1

/- ------------------------------------------------------------------ -/
/- Claim C8.                                                          -/
/- ------------------------------------------------------------------ -/

/-- Claim C8: when the Dependency Extractor fails with a file-not-found
error — the initial manifest or any recursively referenced manifest is
missing — pack raises exactly that error (it is not caught and not turned
into an exit status), and the bundler is never invoked: the run aborts. -/
theorem c8_missing_manifest (a : PackArgs) (env : PackEnv) (cwd : Str)
    (r p : Str) (hhi : truthyList a.hidden_imports = false)
    (hreq : a.hidden_imports_from_requirements = some r) (hr : r ≠ [])
    (hex : extractFile env.reqFiles recursionLimit r = .error (.fileNotFound p)) :
    (packRun a env cwd).1 = .raised (.fileNotFound p) ∧
    ∀ e ∈ (packRun a env cwd).2.2, isRunProc e = false := by
  have htr : truthyStr a.hidden_imports_from_requirements = true := by
    rw [hreq]
    cases r with
    | nil => exact absurd rfl hr
    | cons c cs => rfl
  have hhf : hiddenFlagsE a env = .error (.fileNotFound p) := by
    unfold hiddenFlagsE
    rw [hhi, hreq]
    simp only [Bool.false_eq_true, if_false, Option.getD_some]
    rw [hreq] at htr
    rw [if_pos htr, hex]
  have hcmd : packCmd a env cwd = .error (.fileNotFound p) := by
    unfold packCmd
    rw [hhf]
  have hrun : packRun a env cwd =
      (.raised (.fileNotFound p), cwd,
       [PEvent.cleanDir a.intermediate_dir, PEvent.cleanDir a.dist_dir]) := by
    unfold packRun
    rw [hcmd]
  rw [hrun]
  refine ⟨rfl, ?_⟩
  intro e he
  rcases List.mem_cons.mp he with h | h
  · subst h; rfl
  · rw [List.mem_singleton] at h
    subst h; rfl

/-- Witness for c8_missing_manifest: the manifest r.txt does not exist, the
run raises FileNotFoundError. -/
theorem c8_missing_manifest_witness :
    (packRun packArgsC8 packEnv0 cwdW).1 = .raised (.fileNotFound ("r.txt".data)) :=
  (c8_missing_manifest packArgsC8 packEnv0 cwdW ("r.txt".data) ("r.txt".data)
    (by decide) rfl (by decide) (by decide)).1

/- ------------------------------------------------------------------ -/
/- Claim C4.                                                          -/
/- ------------------------------------------------------------------ -/

/-- Claim C4, counterexample: the claim says an explicit (possibly empty)
hidden-import list keeps the manifest from being read.  With an explicit
empty list and a manifest path, the manifest is read: its contents determine
the hidden-import flags, so two worlds that differ only in the manifest
contents give different command sections. -/
theorem c4_counterexample :
    packArgsC4.hidden_imports = some [] ∧
    hiddenFlagsE packArgsC4 packEnvNumpy =
      .ok [("--hidden-import".data), ("numpy".data)] ∧
    hiddenFlagsE packArgsC4 packEnvNumpy ≠ hiddenFlagsE packArgsC4 packEnvPandas := by
  decide

/-- Claim C4 as amended: the hidden-import flags come from the explicit list
whenever it is non-empty — then they are exactly one flag per listed module
and do not depend on the manifest environment at all.  (The manifest is
consulted whenever the explicit list is None or empty, Python falsiness, and
a manifest path is given.) -/
theorem c4_amended (a : PackArgs) (env env2 : PackEnv) (l : List Str)
    (hl : a.hidden_imports = some l) (hne : l ≠ []) :
    hiddenFlagsE a env =
      .ok (l.flatMap (fun m => [("--hidden-import".data), m])) ∧
    hiddenFlagsE a env = hiddenFlagsE a env2 := by
  have ht : truthyList a.hidden_imports = true := by
    rw [hl]
    cases l with
    | nil => exact absurd rfl hne
    | cons c cs => rfl
  constructor
  · unfold hiddenFlagsE
    rw [if_pos ht, hl]
    rfl
  · unfold hiddenFlagsE
    rw [if_pos ht, if_pos ht]

/-- Witness for c4_amended: a nonempty explicit list wins in both worlds. -/
theorem c4_amended_witness :
    hiddenFlagsE packArgsC4w packEnvNumpy =
      .ok [("--hidden-import".data), ("numpy".data)] ∧
    hiddenFlagsE packArgsC4w packEnvNumpy = hiddenFlagsE packArgsC4w packEnvPandas :=
  c4_amended packArgsC4w packEnvNumpy packEnvPandas [("numpy".data)] rfl (by decide)

/- ------------------------------------------------------------------ -/
/- Extractor lemmas, Claims C7 and C10.                               -/
/- ------------------------------------------------------------------ -/

/-- Processing a concatenation of manifest lines concatenates the results,
with the first error winning. -/
theorem extractLinesWith_append (sub : Str → Except PyErr (List Str))
    (xs ys : List Str) :
    extractLinesWith sub (xs ++ ys) =
      match extractLinesWith sub xs with
      | .error e => .error e
      | .ok a =>
        match extractLinesWith sub ys with
        | .error e => .error e
        | .ok b => .ok (a ++ b) := by
  induction xs with
  | nil =>
    simp only [List.nil_append, extractLinesWith]
    cases extractLinesWith sub ys with
    | error e => rfl
    | ok b => rfl
  | cons l ls ih =>
    rw [List.cons_append]
    simp only [extractLinesWith]
    cases hp : (['-', 'r']).isPrefixOf (pyStrip l) with
    | true =>
      simp only [hp, if_true]
      cases hg : (pySplit ' ' (pyStrip l)).get? 1 with
      | none => rfl
      | some subp =>
        dsimp only
        cases subFile : sub subp with
        | error e => rfl
        | ok subs =>
          rw [ih]
          cases extractLinesWith sub ls with
          | error e => rfl
          | ok a =>
            cases extractLinesWith sub ys with
            | error e => rfl
            | ok b => simp [List.append_assoc]
    | false =>
      simp only [hp, Bool.false_eq_true, if_false]
      by_cases hs : pyStrip l = []
      · simp only [hs, if_pos rfl]
        exact ih
      · simp only [if_neg hs]
        rw [ih]
        cases extractLinesWith sub ls with
        | error e => rfl
        | ok a =>
          cases extractLinesWith sub ys with
          | error e => rfl
          | ok b => rfl

/-- A run of lines with no recursive-include marker extracts to exactly its
package names: each nonblank stripped line cut before the first
version-equality marker, in order. -/
theorem extractLinesWith_no_recursive (sub : Str → Except PyErr (List Str))
    (xs : List Str)
    (h : ∀ l ∈ xs, (['-', 'r']).isPrefixOf (pyStrip l) = false) :
    extractLinesWith sub xs = .ok (reqNames xs) := by
  induction xs with
  | nil => rfl
  | cons l ls ih =>
    have hl := h l (List.mem_cons_self l ls)
    have hrest := ih (fun x hx => h x (List.mem_cons_of_mem _ hx))
    simp only [extractLinesWith, hl, Bool.false_eq_true, if_false]
    by_cases hs : pyStrip l = []
    · rw [if_pos hs, hrest]
      simp [reqNames, List.filterMap_cons, hs]
    · rw [if_neg hs, hrest]
      simp [reqNames, List.filterMap_cons, hs]

/-- Splitting a string that does not contain the separator gives it back
whole as the only piece. -/
theorem pySplit_no_sep (sep : Char) (s : Str) (h : ∀ c ∈ s, c ≠ sep) :
    pySplit sep s = [s] := by
  induction s with
  | nil => rfl
  | cons c cs ih =>
    have hc := h c (List.mem_cons_self c cs)
    simp only [pySplit, if_neg hc]
    rw [ih (fun x hx => h x (List.mem_cons_of_mem _ hx))]

/-- A recursive-include line whose payload is nonempty and free of
whitespace is unchanged by stripping. -/
theorem pyStrip_dashr (sub : Str) (h1 : sub ≠ [])
    (h2 : ∀ c ∈ sub, isSpaceB c = false) :
    pyStrip ('-' :: 'r' :: ' ' :: sub) = '-' :: 'r' :: ' ' :: sub := by
  unfold pyStrip
  have hd : List.dropWhile isSpaceB ('-' :: 'r' :: ' ' :: sub) =
      '-' :: 'r' :: ' ' :: sub := by
    rw [List.dropWhile_cons, (by decide : isSpaceB '-' = false)]
    simp
  rw [hd]
  obtain ⟨c, rest, hcr⟩ :=
    List.exists_cons_of_ne_nil (by simpa using h1 : sub.reverse ≠ [])
  have hcmem : c ∈ sub := by
    rw [← List.mem_reverse, hcr]
    exact List.mem_cons_self c rest
  have hrev : ('-' :: 'r' :: ' ' :: sub).reverse = c :: (rest ++ [' ', 'r', '-']) := by
    simp [hcr]
  rw [hrev, List.dropWhile_cons]
  rw [h2 c hcmem]
  simp only [Bool.false_eq_true, if_false]
  rw [← hrev, List.reverse_reverse]

/-- Splitting a recursive-include line at spaces yields the marker followed
by the split payload. -/
theorem pySplit_dashr (sub : Str) :
    pySplit ' ' ('-' :: 'r' :: ' ' :: sub) = ['-', 'r'] :: pySplit ' ' sub := rfl

/-- Claim C7: a manifest consisting of plain lines around one
recursive-include line extracts to the surrounding package names with the
referenced manifest's extraction inserted at the include line's position, in
that manifest's own order; an error from the referenced manifest
propagates. -/
theorem c7_recursive_include (env : ReqEnv) (fuel : Nat) (m : Str)
    (pre post : List Str) (sub : Str)
    (hm : env m = some (pre ++ ('-' :: 'r' :: ' ' :: sub) :: post))
    (hpre : ∀ l ∈ pre, (['-', 'r']).isPrefixOf (pyStrip l) = false)
    (hpost : ∀ l ∈ post, (['-', 'r']).isPrefixOf (pyStrip l) = false)
    (hsub1 : sub ≠ []) (hsub2 : ∀ c ∈ sub, isSpaceB c = false) :
    extractFile env (fuel + 1) m =
      match extractFile env fuel sub with
      | .error e => .error e
      | .ok mids => .ok (reqNames pre ++ mids ++ reqNames post) := by
  have hstr := pyStrip_dashr sub hsub1 hsub2
  have hsplit : pySplit ' ' sub = [sub] :=
    pySplit_no_sep ' ' sub (fun c hc heq => by
      have hx := hsub2 c hc
      rw [heq] at hx
      exact absurd hx (by decide))
  have hpr : (['-', 'r']).isPrefixOf ('-' :: 'r' :: ' ' :: sub) = true := by
    simp [List.isPrefixOf]
  have hget : (pySplit ' ' ('-' :: 'r' :: ' ' :: sub)).get? 1 = some sub := by
    rw [pySplit_dashr, hsplit]
    rfl
  have hline : extractLinesWith (extractFile env fuel)
      (('-' :: 'r' :: ' ' :: sub) :: post) =
      match extractFile env fuel sub with
      | .error e => .error e
      | .ok mids => .ok (mids ++ reqNames post) := by
    simp only [extractLinesWith, hstr, hpr, if_true, hget]
    cases extractFile env fuel sub with
    | error e => rfl
    | ok mids =>
      dsimp only
      rw [extractLinesWith_no_recursive _ post hpost]
  simp only [extractFile, hm]
  rw [extractLinesWith_append, extractLinesWith_no_recursive _ pre hpre, hline]
  cases extractFile env fuel sub with
  | error e => rfl
  | ok mids => simp [List.append_assoc]

/-- Witness for c7_recursive_include: the spec's scenario manifest, numpy
followed by a recursive include of a manifest declaring requests. -/
theorem c7_recursive_include_witness :
    extractFile reqEnvC7 5 ("req.txt".data) =
      .ok [("numpy".data), ("requests".data)] := by
  have h := c7_recursive_include reqEnvC7 4 ("req.txt".data)
    [("numpy==1.21".data)] [] ("extra.txt".data)
    (by decide) (by decide) (by decide) (by decide) (by decide)
  exact h.trans (by decide)

/-- Claim C10, counterexample: a manifest that contains a bare dash-r line
but whose earlier recursive-include line references a missing file fails
with a file-not-found error, not with an index error, refuting the claim's
universal quantification over all such manifests. -/
theorem c10_counterexample :
    reqEnvC10a ("m.txt".data) = some [("-r nope".data), ("-r".data)] ∧
    extractFile reqEnvC10a recursionLimit ("m.txt".data) =
      .error (.fileNotFound ("nope".data)) := by decide

/-- Claim C10 as amended: when no earlier line of the manifest carries the
recursive-include marker, a line that begins with the marker but has no
space-separated path after it makes the Dependency Extractor fail with an
index-out-of-range error — the function is not total on such inputs. -/
theorem c10_amended (env : ReqEnv) (fuel : Nat) (m : Str) (pre post : List Str)
    (bad : Str) (hm : env m = some (pre ++ bad :: post))
    (hpre : ∀ l ∈ pre, (['-', 'r']).isPrefixOf (pyStrip l) = false)
    (hbad1 : (['-', 'r']).isPrefixOf (pyStrip bad) = true)
    (hbad2 : (pySplit ' ' (pyStrip bad)).get? 1 = none) :
    extractFile env (fuel + 1) m = .error .indexError := by
  have hline : extractLinesWith (extractFile env fuel) (bad :: post) =
      .error .indexError := by
    simp only [extractLinesWith, hbad1, if_true, hbad2]
  simp only [extractFile, hm]
  rw [extractLinesWith_append, extractLinesWith_no_recursive _ pre hpre, hline]

/-- Witness for c10_amended: a manifest holding one package line and then a
bare dash-r line. -/
theorem c10_amended_witness :
    extractFile reqEnvC10b 10 ("m.txt".data) = .error .indexError :=
  c10_amended reqEnvC10b 9 ("m.txt".data) [("numpy==1.0".data)] [] ("-r".data)
    (by decide) (by decide) (by decide) (by decide)

/- ------------------------------------------------------------------ -/
/- String lemmas for Claim C3 (and C2's module names).                -/
/- ------------------------------------------------------------------ -/

/-- str.replace leaves a string alone when the pattern's first character
does not occur in it. -/
theorem pyReplaceAux_head_not_mem (p : Char) (pr rep : Str) :
    ∀ (f : Nat) (s : Str), p ∉ s → pyReplaceAux (p :: pr) rep f s = s := by
  intro f s
  induction s generalizing f with
  | nil =>
    intro _
    cases f with
    | zero => rfl
    | succ f2 => rfl
  | cons c cs ih =>
    intro hmem
    cases f with
    | zero => rfl
    | succ f2 =>
      have hnc : ¬ ((p :: pr) ≠ [] ∧ (p :: pr).isPrefixOf (c :: cs) = true) := by
        rintro ⟨h1, h2⟩
        simp only [List.isPrefixOf, Bool.and_eq_true, beq_iff_eq] at h2
        exact hmem (h2.1 ▸ List.mem_cons_self c cs)
      simp only [pyReplaceAux, if_neg hnc]
      rw [ih f2 (fun hx => hmem (List.mem_cons_of_mem _ hx))]

/-- pyReplace version of pyReplaceAux_head_not_mem. -/
theorem pyReplace_head_not_mem (p : Char) (pr rep s : Str) (h : p ∉ s) :
    pyReplace (p :: pr) rep s = s :=
  pyReplaceAux_head_not_mem p pr rep s.length s h

/-- Replacing ".py" by nothing in a string that ends in ".py" and has no
other period removes exactly that suffix. -/
theorem pyReplaceAux_strip_py :
    ∀ (f : Nat) (s : Str), '.' ∉ s → s.length + 3 ≤ f →
      pyReplaceAux ['.', 'p', 'y'] [] f (s ++ ['.', 'p', 'y']) = s := by
  intro f s
  induction s generalizing f with
  | nil =>
    intro _ hf
    cases f with
    | zero => omega
    | succ f2 =>
      simp only [List.nil_append, pyReplaceAux,
        if_pos (⟨by decide, by decide⟩ :
          (['.', 'p', 'y'] : Str) ≠ [] ∧
            (['.', 'p', 'y'] : Str).isPrefixOf ['.', 'p', 'y'] = true)]
      cases f2 with
      | zero => rfl
      | succ f3 => rfl
  | cons c cs ih =>
    intro hmem hf
    cases f with
    | zero => omega
    | succ f2 =>
      have hnc : ¬ ((['.', 'p', 'y'] : Str) ≠ [] ∧
          (['.', 'p', 'y'] : Str).isPrefixOf (c :: (cs ++ ['.', 'p', 'y'])) = true) := by
        rintro ⟨h1, h2⟩
        simp only [List.isPrefixOf, Bool.and_eq_true, beq_iff_eq] at h2
        exact hmem (h2.1 ▸ List.mem_cons_self c cs)
      rw [List.cons_append]
      simp only [pyReplaceAux, if_neg hnc]
      rw [ih f2 (fun hx => hmem (List.mem_cons_of_mem _ hx)) (by simpa using Nat.le_of_succ_le_succ hf)]

/-- pyReplace version of pyReplaceAux_strip_py. -/
theorem pyReplace_strip_py (s : Str) (h : '.' ∉ s) :
    pyReplace ['.', 'p', 'y'] [] (s ++ ['.', 'p', 'y']) = s := by
  unfold pyReplace
  exact pyReplaceAux_strip_py (s ++ ['.', 'p', 'y']).length s h (by simp)

/-- takeWhile keeps a list all of whose elements satisfy the predicate. -/
theorem takeWhile_eq_self_of_forall {p : Char → Bool} :
    ∀ l : Str, (∀ x ∈ l, p x = true) → l.takeWhile p = l := by
  intro l h
  induction l with
  | nil => rfl
  | cons c cs ih =>
    rw [List.takeWhile_cons, h c (List.mem_cons_self c cs)]
    simp only [if_true]
    rw [ih (fun x hx => h x (List.mem_cons_of_mem _ hx))]

/-- takeWhile of a list whose head fails the predicate is empty. -/
theorem takeWhile_eq_nil_of_head {p : Char → Bool} (c : Char) (cs : Str)
    (h : p c = false) : (c :: cs).takeWhile p = [] := by
  rw [List.takeWhile_cons, h]
  simp

/-- Elements of takeWhile are elements of the list. -/
theorem mem_of_mem_takeWhile {p : Char → Bool} {x : Char} {l : Str}
    (h : x ∈ l.takeWhile p) : x ∈ l :=
  (List.takeWhile_sublist p).mem h

/-- splitext leaves a path without periods alone. -/
theorem pySplitextRoot_no_dot (s : Str) (h : '.' ∉ s) : pySplitextRoot s = s := by
  unfold pySplitextRoot
  dsimp only
  have hsub : ∀ x ∈ (s.reverse.takeWhile (fun c => c ≠ '/')).reverse, x ∈ s := by
    intro x hx
    rw [List.mem_reverse] at hx
    exact List.mem_reverse.mp (mem_of_mem_takeWhile hx)
  have hlead : ((s.reverse.takeWhile (fun c => c ≠ '/')).reverse).takeWhile
      (fun c => c = '.') = [] := by
    cases hb : (s.reverse.takeWhile (fun c => c ≠ '/')).reverse with
    | nil => rfl
    | cons b bs =>
      refine takeWhile_eq_nil_of_head b bs ?_
      have hbmem : b ∈ s := hsub b (hb ▸ List.mem_cons_self b bs)
      simp only [decide_eq_false_iff_not]
      intro heq
      exact h (heq ▸ hbmem)
  rw [hlead]
  simp only [List.length_nil, List.drop_zero]
  have hall : ((s.reverse.takeWhile (fun c => c ≠ '/')).reverse).reverse.takeWhile
      (fun c => c ≠ '.') =
      ((s.reverse.takeWhile (fun c => c ≠ '/')).reverse).reverse := by
    refine takeWhile_eq_self_of_forall _ ?_
    intro x hx
    rw [List.reverse_reverse] at hx
    have hxm : x ∈ s := List.mem_reverse.mp (mem_of_mem_takeWhile hx)
    exact decide_eq_true (fun heq => h (heq ▸ hxm))
  rw [hall, List.length_reverse, if_pos rfl]

/-- splitext of a path made of a period-free part followed by ".py" (with a
nonempty final component) strips exactly that extension. -/
theorem pySplitextRoot_strip_py (s : Str) (h1 : '.' ∉ s) (h2 : s ≠ [])
    (h3 : s.getLast? ≠ some '/') :
    pySplitextRoot (s ++ ['.', 'p', 'y']) = s := by
  obtain ⟨c, r, hcr⟩ : ∃ c r, s.reverse = c :: r :=
    List.exists_cons_of_ne_nil (by simpa using h2)
  have hc_last : s.getLast? = some c := by
    rw [List.getLast?_eq_head?_reverse, hcr]
    rfl
  have hc_ne : c ≠ '/' := fun heq => h3 (by rw [hc_last, heq])
  have htw2 : List.takeWhile (fun ch => decide (ch ≠ '/')) s.reverse
      = c :: List.takeWhile (fun ch => decide (ch ≠ '/')) r := by
    rw [hcr, List.takeWhile_cons, decide_eq_true hc_ne]
    simp
  unfold pySplitextRoot
  dsimp only
  have hrev : (s ++ ['.', 'p', 'y']).reverse = 'y' :: 'p' :: '.' :: s.reverse := by
    simp
  rw [hrev]
  have htw : List.takeWhile (fun ch => decide (ch ≠ '/')) ('y' :: 'p' :: '.' :: s.reverse)
      = 'y' :: 'p' :: '.' :: List.takeWhile (fun ch => decide (ch ≠ '/')) s.reverse := by
    simp [List.takeWhile_cons]
  rw [htw]
  have hsplit : ('y' :: 'p' :: '.' ::
        List.takeWhile (fun ch => decide (ch ≠ '/')) s.reverse).reverse
      = (List.takeWhile (fun ch => decide (ch ≠ '/')) s.reverse).reverse ++
        ['.', 'p', 'y'] := by
    simp
  rw [hsplit]
  have hbn_sub : ∀ x ∈ (List.takeWhile (fun ch => decide (ch ≠ '/')) s.reverse).reverse,
      x ∈ s := by
    intro x hx
    rw [List.mem_reverse] at hx
    exact List.mem_reverse.mp (mem_of_mem_takeWhile hx)
  have hbn_ne : (List.takeWhile (fun ch => decide (ch ≠ '/')) s.reverse).reverse ≠ [] := by
    rw [htw2]
    simp
  generalize hBN : (List.takeWhile (fun ch => decide (ch ≠ '/')) s.reverse).reverse = bn at hbn_sub hbn_ne ⊢
  obtain ⟨b0, bs, hb0⟩ := List.exists_cons_of_ne_nil hbn_ne
  subst hb0
  have hlead : List.takeWhile (fun ch => decide (ch = '.')) ((b0 :: bs) ++ ['.', 'p', 'y'])
      = [] := by
    rw [List.cons_append]
    exact takeWhile_eq_nil_of_head _ _
      (decide_eq_false (fun heq => h1 (heq ▸ hbn_sub b0 (List.mem_cons_self _ _))))
  rw [hlead]
  simp only [List.length_nil, List.drop_zero]
  have hrev2 : ((b0 :: bs) ++ ['.', 'p', 'y']).reverse
      = 'y' :: 'p' :: '.' :: (b0 :: bs).reverse := by
    simp
  rw [hrev2]
  have hext : List.takeWhile (fun ch => decide (ch ≠ '.'))
      ('y' :: 'p' :: '.' :: (b0 :: bs).reverse) = ['y', 'p'] := by
    simp [List.takeWhile_cons]
  rw [hext]
  have hcond : (['y', 'p'] : Str).length ≠ ((b0 :: bs) ++ ['.', 'p', 'y']).length := by
    simp only [List.length_cons, List.length_append]
    omega
  rw [if_neg hcond]
  have hl : (s ++ ['.', 'p', 'y']).length - (['y', 'p'] : Str).length - 1 = s.length := by
    simp only [List.length_append, List.length_cons, List.length_nil]
    omega
  rw [hl]
  exact List.take_left s ['.', 'p', 'y']

/- ------------------------------------------------------------------ -/
/- Claim C3.                                                          -/
/- ------------------------------------------------------------------ -/

/-- Claim C3, counterexample: on the fragment readme.txt, pack's derivation
(splitext) yields readme while compile's derivation (replace ".py") yields
readme.txt — the two derivations are not the same function on all inputs. -/
theorem c3_counterexample :
    packExcludeModuleName ("readme.txt".data) = ("readme".data) ∧
    compileModuleName ("readme.txt".data) = ("readme.txt".data) ∧
    packExcludeModuleName ("readme.txt".data) ≠
      compileModuleName ("readme.txt".data) := by decide

/-- Claim C3 as amended: the two module-name derivations agree on every
fragment without a period, and on every fragment of the form s + ".py"
where s is period-free and ends in a nonempty final component; in general
they differ — pack strips whatever final extension is present, compile
removes every occurrence of ".py". -/
theorem c3_amended (ex : Str)
    (h : '.' ∉ ex ∨ ∃ s, ex = s ++ ['.', 'p', 'y'] ∧ '.' ∉ s ∧ s ≠ [] ∧
      s.getLast? ≠ some '/') :
    packExcludeModuleName ex = compileModuleName ex := by
  rcases h with h | ⟨s, rfl, hs1, hs2, hs3⟩
  · unfold packExcludeModuleName compileModuleName
    rw [pySplitextRoot_no_dot ex h, pyReplace_head_not_mem '.' ['p', 'y'] [] ex h]
  · unfold packExcludeModuleName compileModuleName
    rw [pySplitextRoot_strip_py s hs1 hs2 hs3, pyReplace_strip_py s hs1]

/-- Witness for c3_amended: both derivations send pkg/mod.py to pkg.mod. -/
theorem c3_amended_witness :
    packExcludeModuleName ("pkg/mod.py".data) = compileModuleName ("pkg/mod.py".data) :=
  c3_amended ("pkg/mod.py".data)
    (Or.inr ⟨("pkg/mod".data), by decide, by decide, by decide, by decide⟩)

/- ------------------------------------------------------------------ -/
/- Walk lemmas: distinctness of the Path Filter's results (C2, C9).   -/
/- ------------------------------------------------------------------ -/

/-- Unfolding of wfB on a directory. -/
theorem wfB_dir (es : EntryList) (h : wfB (.dir es) = true) :
    (entryNames es).Nodup ∧ wfEntries es = true := by
  simp only [wfB, Bool.and_eq_true, decide_eq_true_eq] at h
  exact h

/-- Unfolding of wfEntries on a cons. -/
theorem wfEntries_cons (n : Str) (t : FSTree) (rest : EntryList)
    (h : wfEntries (.cons n t rest) = true) :
    n ≠ [] ∧ '/' ∉ n ∧ wfB t = true ∧ wfEntries rest = true := by
  simp only [wfEntries, Bool.and_eq_true, decide_eq_true_eq] at h
  exact ⟨h.1.1.1, h.1.1.2, h.1.2, h.2⟩

/-- File names of a well-formed directory are nonempty and slash-free. -/
theorem entryFiles_good : ∀ (es : EntryList), wfEntries es = true →
    ∀ f ∈ entryFiles es, f ≠ [] ∧ '/' ∉ f := by
  intro es
  cases es with
  | nil =>
    intro _ f hf
    simp [entryFiles] at hf
  | cons n t rest =>
    intro h f hf
    obtain ⟨h1, h2, _, h4⟩ := wfEntries_cons n t rest h
    cases t with
    | file =>
      simp only [entryFiles, List.singleton_append] at hf
      rcases List.mem_cons.mp hf with h5 | h5
      · exact h5 ▸ ⟨h1, h2⟩
      · exact entryFiles_good rest h4 f h5
    | dir es2 =>
      simp only [entryFiles, List.nil_append] at hf
      exact entryFiles_good rest h4 f hf

/-- The file names are a sublist of all entry names. -/
theorem entryFiles_sublist : ∀ (es : EntryList), List.Sublist (entryFiles es) (entryNames es) := by
  intro es
  cases es with
  | nil => exact List.Sublist.refl []
  | cons n t rest =>
    cases t with
    | file =>
      simp only [entryFiles, entryNames, List.singleton_append]
      exact (entryFiles_sublist rest).cons₂ n
    | dir es2 =>
      simp only [entryFiles, entryNames, List.nil_append]
      exact (entryFiles_sublist rest).cons n

/- Every walk group's root extends the start components. -/
mutual
theorem walkFrom_root_pfx (p : List Str) (t : FSTree) :
    ∀ q ∈ walkFrom p t, p <+: q.1 := by
  intro q hq
  cases t with
  | file => simp [walkFrom] at hq
  | dir es =>
    simp only [walkFrom, List.mem_cons] at hq
    rcases hq with h | h
    · subst h
      exact List.prefix_refl p
    · exact walkChildren_root_pfx p es q h
theorem walkChildren_root_pfx (p : List Str) (es : EntryList) :
    ∀ q ∈ walkChildren p es, p <+: q.1 := by
  intro q hq
  cases es with
  | nil => simp [walkChildren] at hq
  | cons n t rest =>
    simp only [walkChildren, List.mem_append] at hq
    rcases hq with h | h
    · cases t with
      | file => simp at h
      | dir es2 =>
        have h2 := walkFrom_root_pfx (p ++ [n]) (.dir es2) q h
        exact (List.prefix_append p [n]).trans h2
    · exact walkChildren_root_pfx p rest q h
end

/-- A group produced under some child of the entry list has its root extend
the start components by that child's name. -/
theorem walkChildren_root_extends : ∀ (p : List Str) (es : EntryList),
    ∀ q ∈ walkChildren p es, ∃ n ∈ entryNames es, (p ++ [n]) <+: q.1 := by
  intro p es
  cases es with
  | nil =>
    intro q hq
    simp [walkChildren] at hq
  | cons n t rest =>
    intro q hq
    simp only [walkChildren, List.mem_append] at hq
    rcases hq with h | h
    · cases t with
      | file => simp at h
      | dir es2 =>
        exact ⟨n, List.mem_cons_self n _,
          walkFrom_root_pfx (p ++ [n]) (.dir es2) q h⟩
    · obtain ⟨n2, hn2, hpre⟩ := walkChildren_root_extends p rest q h
      exact ⟨n2, List.mem_cons_of_mem n hn2, hpre⟩

/- In a well-formed tree, every walk group has nonempty slash-free root
components and file names, and its file list has no duplicates. -/
mutual
theorem walkFrom_wf (p : List Str) (t : FSTree) (hwf : wfB t = true)
    (hp : ∀ c ∈ p, c ≠ [] ∧ '/' ∉ c) :
    ∀ q ∈ walkFrom p t,
      (∀ c ∈ q.1, c ≠ [] ∧ '/' ∉ c) ∧ (∀ f ∈ q.2, f ≠ [] ∧ '/' ∉ f) ∧ q.2.Nodup := by
  intro q hq
  cases t with
  | file => simp [walkFrom] at hq
  | dir es =>
    obtain ⟨hnames, hents⟩ := wfB_dir es hwf
    simp only [walkFrom, List.mem_cons] at hq
    rcases hq with h | h
    · subst h
      exact ⟨hp, entryFiles_good es hents,
        List.Nodup.sublist (entryFiles_sublist es) hnames⟩
    · exact walkChildren_wf p es hents hp q h
theorem walkChildren_wf (p : List Str) (es : EntryList) (hwf : wfEntries es = true)
    (hp : ∀ c ∈ p, c ≠ [] ∧ '/' ∉ c) :
    ∀ q ∈ walkChildren p es,
      (∀ c ∈ q.1, c ≠ [] ∧ '/' ∉ c) ∧ (∀ f ∈ q.2, f ≠ [] ∧ '/' ∉ f) ∧ q.2.Nodup := by
  intro q hq
  cases es with
  | nil => simp [walkChildren] at hq
  | cons n t rest =>
    obtain ⟨h1, h2, h3, h4⟩ := wfEntries_cons n t rest hwf
    simp only [walkChildren, List.mem_append] at hq
    rcases hq with h | h
    · cases t with
      | file => simp at h
      | dir es2 =>
        refine walkFrom_wf (p ++ [n]) (.dir es2) h3 ?_ q h
        intro c hc
        rcases List.mem_append.mp hc with hc2 | hc2
        · exact hp c hc2
        · rw [List.mem_singleton] at hc2
          exact hc2 ▸ ⟨h1, h2⟩
    · exact walkChildren_wf p rest h4 hp q h
end

/- In a well-formed tree, the roots of the walk groups are pairwise
distinct. -/
mutual
theorem walkFrom_roots_nodup (p : List Str) (t : FSTree) (hwf : wfB t = true) :
    ((walkFrom p t).map Prod.fst).Nodup := by
  cases t with
  | file => simp [walkFrom]
  | dir es =>
    obtain ⟨hnames, hents⟩ := wfB_dir es hwf
    simp only [walkFrom, List.map_cons]
    rw [List.nodup_cons]
    constructor
    · intro hmem
      rw [List.mem_map] at hmem
      obtain ⟨q, hq, hq2⟩ := hmem
      obtain ⟨n, _, hpre⟩ := walkChildren_root_extends p es q hq
      have hle := hpre.length_le
      rw [hq2] at hle
      simp only [List.length_append, List.length_cons, List.length_nil] at hle
      omega
    · exact walkChildren_roots_nodup p es hents hnames
theorem walkChildren_roots_nodup (p : List Str) (es : EntryList)
    (hwf : wfEntries es = true) (hnames : (entryNames es).Nodup) :
    ((walkChildren p es).map Prod.fst).Nodup := by
  cases es with
  | nil => simp [walkChildren]
  | cons n t rest =>
    obtain ⟨h1, h2, h3, h4⟩ := wfEntries_cons n t rest hwf
    simp only [entryNames, List.nodup_cons] at hnames
    obtain ⟨hn_out, hnames_rest⟩ := hnames
    simp only [walkChildren, List.map_append]
    apply List.Nodup.append
    · cases t with
      | file => simp
      | dir es2 => exact walkFrom_roots_nodup (p ++ [n]) (.dir es2) h3
    · exact walkChildren_roots_nodup p rest h4 hnames_rest
    · intro a ha hb
      cases t with
      | file => simp at ha
      | dir es2 =>
        rw [List.mem_map] at ha hb
        obtain ⟨q1, hq1, he1⟩ := ha
        obtain ⟨q2, hq2, he2⟩ := hb
        have hpre1 : (p ++ [n]) <+: a :=
          he1 ▸ walkFrom_root_pfx (p ++ [n]) (.dir es2) q1 hq1
        obtain ⟨n2, hn2, hpre2⟩ := walkChildren_root_extends p rest q2 hq2
        rw [he2] at hpre2
        have hlen : (p ++ [n]).length = (p ++ [n2]).length := by simp
        have heq : p ++ [n] = p ++ [n2] :=
          (List.prefix_of_prefix_length_le hpre1 hpre2 (le_of_eq hlen)).eq_of_length hlen
        have hnn : n = n2 := by simpa using heq
        exact hn_out (hnn ▸ hn2)
end

/-- Two slash-free heads followed by empty-or-slash-headed rests split a
string uniquely. -/
theorem slashfree_split : ∀ (x y r1 r2 : Str), '/' ∉ x → '/' ∉ y →
    (r1 = [] ∨ r1.head? = some '/') → (r2 = [] ∨ r2.head? = some '/') →
    x ++ r1 = y ++ r2 → x = y ∧ r1 = r2 := by
  intro x
  induction x with
  | nil =>
    intro y r1 r2 _ hy hr1 _ heq
    cases y with
    | nil => exact ⟨rfl, heq⟩
    | cons d y2 =>
      exfalso
      rw [List.nil_append] at heq
      rcases hr1 with h | h
      · rw [h] at heq
        simp at heq
      · rw [heq] at h
        simp only [List.cons_append, List.head?_cons, Option.some.injEq] at h
        exact hy (h ▸ List.mem_cons_self d y2)
  | cons c x2 ih =>
    intro y r1 r2 hx hy hr1 hr2 heq
    cases y with
    | nil =>
      exfalso
      rw [List.nil_append] at heq
      rcases hr2 with h | h
      · rw [h] at heq
        simp at heq
      · rw [← heq] at h
        simp only [List.cons_append, List.head?_cons, Option.some.injEq] at h
        exact hx (h ▸ List.mem_cons_self c x2)
    | cons d y2 =>
      rw [List.cons_append, List.cons_append] at heq
      injection heq with h1 h2
      obtain ⟨hxy, hr⟩ := ih y2 r1 r2
        (fun hmem => hx (List.mem_cons_of_mem _ hmem))
        (fun hmem => hy (List.mem_cons_of_mem _ hmem)) hr1 hr2 h2
      exact ⟨by rw [h1, hxy], hr⟩

/-- interSlash is injective on nonempty lists of slash-free components. -/
theorem interSlash_inj : ∀ (xs ys : List Str),
    (∀ c ∈ xs, '/' ∉ c) → (∀ c ∈ ys, '/' ∉ c) →
    xs ≠ [] → ys ≠ [] → interSlash xs = interSlash ys → xs = ys := by
  intro xs
  induction xs with
  | nil =>
    intro ys _ _ hne
    exact absurd rfl hne
  | cons x xs2 ih =>
    intro ys hxs hys _ hyne heq
    cases ys with
    | nil => exact absurd rfl hyne
    | cons y ys2 =>
      have hx1 : interSlash (x :: xs2) =
          x ++ (if xs2 = [] then ([] : Str) else '/' :: interSlash xs2) := by
        cases xs2 with
        | nil => simp [interSlash]
        | cons a b => simp [interSlash]
      have hy1 : interSlash (y :: ys2) =
          y ++ (if ys2 = [] then ([] : Str) else '/' :: interSlash ys2) := by
        cases ys2 with
        | nil => simp [interSlash]
        | cons a b => simp [interSlash]
      rw [hx1, hy1] at heq
      obtain ⟨hxy, hrest⟩ := slashfree_split x y _ _
        (hxs x (List.mem_cons_self x xs2)) (hys y (List.mem_cons_self y ys2))
        (by cases xs2 with
          | nil => exact Or.inl (by simp)
          | cons a b => exact Or.inr (by simp [List.cons_ne_nil])
        )
        (by cases ys2 with
          | nil => exact Or.inl (by simp)
          | cons a b => exact Or.inr (by simp [List.cons_ne_nil])
        ) heq
      subst hxy
      cases xs2 with
      | nil =>
        cases ys2 with
        | nil => rfl
        | cons a2 b2 => simp at hrest
      | cons a b =>
        cases ys2 with
        | nil => simp at hrest
        | cons a2 b2 =>
          rw [if_neg (List.cons_ne_nil a b), if_neg (List.cons_ne_nil a2 b2)] at hrest
          injection hrest with _ hrest2
          rw [ih (a2 :: b2)
            (fun c hc => hxs c (List.mem_cons_of_mem _ hc))
            (fun c hc => hys c (List.mem_cons_of_mem _ hc))
            (List.cons_ne_nil a b) (List.cons_ne_nil a2 b2) hrest2]

/-- render is nonempty-list rendering. -/
theorem render_ne_nil (cs : List Str) (h : cs ≠ []) : render cs = interSlash cs := by
  cases cs with
  | nil => exact absurd rfl h
  | cons c cs2 => rfl

/-- Rendered relative file paths determine their walk root and file name,
for slash-free components. -/
theorem render_append_inj (p1 p2 : List Str) (f1 f2 : Str)
    (h1 : ∀ c ∈ p1 ++ [f1], '/' ∉ c) (h2 : ∀ c ∈ p2 ++ [f2], '/' ∉ c)
    (heq : render (p1 ++ [f1]) = render (p2 ++ [f2])) : p1 = p2 ∧ f1 = f2 := by
  have hne1 : p1 ++ [f1] ≠ [] := by simp
  have hne2 : p2 ++ [f2] ≠ [] := by simp
  rw [render_ne_nil _ hne1, render_ne_nil _ hne2] at heq
  have hlists := interSlash_inj _ _ h1 h2 hne1 hne2 heq
  obtain ⟨ha, hb⟩ := List.append_inj' hlists rfl
  exact ⟨ha, by injection hb⟩

/-- filterMap keeps a duplicate-free list duplicate-free when the function
is injective on the kept members. -/
theorem nodup_filterMap_on {α β : Type} (f : α → Option β) :
    ∀ (l : List α),
      (∀ a ∈ l, ∀ b ∈ l, ∀ c, f a = some c → f b = some c → a = b) →
      l.Nodup → (l.filterMap f).Nodup := by
  intro l
  induction l with
  | nil =>
    intro _ _
    simp
  | cons x xs ih =>
    intro hinj hnd
    rw [List.nodup_cons] at hnd
    rw [List.filterMap_cons]
    cases hfx : f x with
    | none =>
      exact ih (fun a ha b hb => hinj a (List.mem_cons_of_mem _ ha)
        b (List.mem_cons_of_mem _ hb)) hnd.2
    | some c =>
      rw [List.nodup_cons]
      refine ⟨?_, ih (fun a ha b hb => hinj a (List.mem_cons_of_mem _ ha)
        b (List.mem_cons_of_mem _ hb)) hnd.2⟩
      intro hmem
      rw [List.mem_filterMap] at hmem
      obtain ⟨a, ha, hfa⟩ := hmem
      have hax : a = x := hinj a (List.mem_cons_of_mem _ ha)
        x (List.mem_cons_self _ _) c hfa hfx
      exact hnd.1 (hax ▸ ha)

/-- Inversion of the per-file test of the Path Filter loop. -/
theorem pyGroup_some (exclude : List Str) (p : List Str) (f c : Str)
    (h : (if endsWithPy f then
            if fileExcluded exclude (render (p ++ [f])) then none
            else some (render (p ++ [f]))
          else none) = some c) : c = render (p ++ [f]) := by
  by_cases h1 : endsWithPy f = true
  · rw [if_pos h1] at h
    by_cases h2 : fileExcluded exclude (render (p ++ [f])) = true
    · rw [if_pos h2] at h
      cases h
    · rw [if_neg h2] at h
      exact (Option.some.inj h).symm
  · rw [if_neg h1] at h
    cases h

/-- Members of a walk group's contribution are rendered paths of its files. -/
theorem mem_pyGroup (t : FSTree) (exclude : List Str) (g : List Str × List Str)
    (x : Str) (h : x ∈ pyGroup t exclude g) :
    ∃ f ∈ g.2, x = render (g.1 ++ [f]) := by
  unfold pyGroup at h
  by_cases hp : prunedGroup t exclude (render g.1) = true
  · simp [hp] at h
  · rw [if_neg hp] at h
    rw [List.mem_filterMap] at h
    obtain ⟨f, hf, hsome⟩ := h
    exact ⟨f, hf, pyGroup_some exclude g.1 f x hsome⟩

/-- On a well-formed tree, the Path Filter never lists the same relative
path twice. -/
theorem nodup_find_py_files (t : FSTree) (exclude : List Str)
    (hwf : wfB t = true) : (find_py_files t exclude).Nodup := by
  unfold find_py_files
  rw [List.nodup_flatMap]
  constructor
  · intro g hg
    obtain ⟨hcomp, hfiles, hnd⟩ := walkFrom_wf [] t hwf (by simp) g hg
    unfold pyGroup
    by_cases hp : prunedGroup t exclude (render g.1) = true
    · simp [hp]
    · rw [if_neg hp]
      apply nodup_filterMap_on _ _ ?_ hnd
      intro a ha b hb c hfa hfb
      have hca := pyGroup_some exclude g.1 a c hfa
      have hcb := pyGroup_some exclude g.1 b c hfb
      have hgood : ∀ e ∈ g.1 ++ [a], '/' ∉ e := by
        intro e he
        rcases List.mem_append.mp he with he2 | he2
        · exact (hcomp e he2).2
        · rw [List.mem_singleton] at he2
          exact he2 ▸ (hfiles a ha).2
      have hgood2 : ∀ e ∈ g.1 ++ [b], '/' ∉ e := by
        intro e he
        rcases List.mem_append.mp he with he2 | he2
        · exact (hcomp e he2).2
        · rw [List.mem_singleton] at he2
          exact he2 ▸ (hfiles b hb).2
      exact (render_append_inj g.1 g.1 a b hgood hgood2 (hca ▸ hcb)).2
  · have hroots := walkFrom_roots_nodup [] t hwf
    have hpw : (walkFrom [] t).Pairwise (fun g1 g2 => g1.1 ≠ g2.1) := by
      rw [List.Nodup, List.pairwise_map] at hroots
      exact hroots
    refine hpw.imp_of_mem ?_
    intro g1 g2 hg1 hg2 hne
    intro x hx1 hx2
    obtain ⟨f1, hf1, he1⟩ := mem_pyGroup t exclude g1 x hx1
    obtain ⟨f2, hf2, he2⟩ := mem_pyGroup t exclude g2 x hx2
    obtain ⟨w1c, w1f, _⟩ := walkFrom_wf [] t hwf (by simp) g1 hg1
    obtain ⟨w2c, w2f, _⟩ := walkFrom_wf [] t hwf (by simp) g2 hg2
    have hgood : ∀ e ∈ g1.1 ++ [f1], '/' ∉ e := by
      intro e he
      rcases List.mem_append.mp he with he2 | he2
      · exact (w1c e he2).2
      · rw [List.mem_singleton] at he2
        exact he2 ▸ (w1f f1 hf1).2
    have hgood2 : ∀ e ∈ g2.1 ++ [f2], '/' ∉ e := by
      intro e he
      rcases List.mem_append.mp he with he2 | he2
      · exact (w2c e he2).2
      · rw [List.mem_singleton] at he2
        exact he2 ▸ (w2f f2 hf2).2
    exact hne (render_append_inj g1.1 g2.1 f1 f2 hgood hgood2 (he1 ▸ he2)).1

/-- Filtering a duplicate-free list for one of its members keeps exactly it. -/
theorem filter_eq_singleton_of_nodup : ∀ (l : List Str) (f : Str), l.Nodup →
    f ∈ l → l.filter (fun x => x == f) = [f] := by
  intro l f
  induction l with
  | nil =>
    intro _ h
    simp at h
  | cons x xs ih =>
    intro hnd hmem
    rw [List.nodup_cons] at hnd
    rw [List.filter_cons]
    rcases List.mem_cons.mp hmem with h | h
    · rw [if_pos (by rw [h]; simp)]
      have hrest : xs.filter (fun y => y == f) = [] := by
        rw [List.filter_eq_nil_iff]
        intro a ha
        simp only [beq_iff_eq, decide_eq_true_eq]
        intro heq
        rw [h] at heq
        exact hnd.1 (heq ▸ ha)
      rw [hrest, h]
    · have hxf : (x == f) = false := by
        simp only [beq_eq_false_iff_ne]
        intro heq
        exact hnd.1 (heq ▸ h)
      simp only [hxf, Bool.false_eq_true, if_false]
      exact ih hnd.2 h

/- ------------------------------------------------------------------ -/
/- Claim C2.                                                          -/
/- ------------------------------------------------------------------ -/

/-- Claim C2, counterexample: for the source file x.pyz.py, stripping only
the trailing extension would give module name x.pyz, but compile produces
module name xz — str.replace removes every occurrence of ".py" inside the
path, not only the trailing extension. -/
theorem c2_counterexample :
    compileTargets exTree2 none [] = [(("xz".data), ("x.pyz.py".data))] ∧
    pySplitextRoot ("x.pyz.py".data) = ("x.pyz".data) ∧
    ("xz".data) ≠ ("x.pyz".data) := by decide

/-- Claim C2 as amended: for every source file F kept by the Path Filter and
distinct from the (truthy) entry file, compile produces exactly one
extension target with source F, and its module name is F's root-relative
path with every occurrence of ".py" removed and separators replaced by
dots. -/
theorem c2_amended (t : FSTree) (main : Option Str) (exclude : List Str)
    (f : Str) (hwf : wfB t = true) (hf : f ∈ find_py_files t exclude)
    (hmain : ∀ m, main = some m → m ≠ [] → f ≠ m) :
    (compileTargets t main exclude).filter (fun pr => pr.2 == f)
      = [(compileModuleName f, f)] := by
  have hnd := nodup_find_py_files t exclude hwf
  have key : ∀ (l : List Str), l.Nodup → f ∈ l →
      (l.map (fun x => (compileModuleName x, x))).filter (fun pr => pr.2 == f)
        = [(compileModuleName f, f)] := by
    intro l hl hfl
    rw [List.filter_map]
    have hcomp : ((fun pr : Str × Str => pr.2 == f) ∘
        (fun x : Str => (compileModuleName x, x))) = fun x => x == f := rfl
    rw [hcomp, filter_eq_singleton_of_nodup l f hl hfl]
    rfl
  unfold compileTargets
  dsimp only
  cases main with
  | none => exact key _ hnd hf
  | some m =>
    dsimp only
    by_cases hm : m ≠ []
    · rw [if_pos hm]
      by_cases hmem : m ∈ find_py_files t exclude
      · rw [if_pos hmem]
        refine key _ (hnd.erase m) ?_
        rw [List.mem_erase_of_ne (hmain m rfl hm)]
        exact hf
      · rw [if_neg hmem]
        exact key _ hnd hf
    · rw [if_neg hm]
      exact key _ hnd hf

/-- Witness for c2_amended: the spec's scenario — files a.py, b.py,
skip/c.py, exclusion skip, entry a.py — yields the single target (b, b.py). -/
theorem c2_amended_witness :
    (compileTargets exTree3 (some ("a.py".data)) [("skip".data)]).filter
      (fun pr => pr.2 == ("b.py".data)) = [(("b".data), ("b.py".data))] := by
  have h := c2_amended exTree3 (some ("a.py".data)) [("skip".data)] ("b.py".data)
    (by decide) (by decide) (by intro m hm _; cases hm; decide)
  exact h.trans (by decide)

/- ------------------------------------------------------------------ -/
/- Claim C9.                                                          -/
/- ------------------------------------------------------------------ -/

/-- Claim C9: with a (truthy) entry file, the entry file is never among the
sources handed to the compiler — it is removed from the include set — and it
is copied into the output directory only after the compiler has run. -/
theorem c9_entry_not_compiled (t : FSTree) (data : Option (List Str))
    (exclude : List Str) (m : Str) (inter dist : Str)
    (hm : m ≠ []) (hwf : wfB t = true) :
    (∀ T, CEvent.runCython T ∈ compileEvents t (some m) data exclude inter dist →
      m ∉ T.map Prod.snd) ∧
    ∃ pre post, compileEvents t (some m) data exclude inter dist =
        pre ++ CEvent.copyMain m :: post ∧
      ∀ e ∈ post, ∀ T, e ≠ CEvent.runCython T := by
  have hev : compileEvents t (some m) data exclude inter dist =
      [CEvent.cleanDir inter, CEvent.cleanDir dist,
       CEvent.runCython (compileTargets t (some m) exclude),
       CEvent.copyMain m, CEvent.copyData (data.getD [])] := by
    unfold compileEvents
    dsimp only
    rw [if_pos hm]
    rfl
  constructor
  · intro T hT
    rw [hev] at hT
    simp only [List.mem_cons, List.not_mem_nil, or_false, false_or,
      CEvent.runCython.injEq, reduceCtorEq] at hT
    subst hT
    unfold compileTargets
    dsimp only
    rw [List.map_map]
    have hsnd : (Prod.snd ∘ fun f2 : Str => (compileModuleName f2, f2)) = id := rfl
    rw [hsnd, List.map_id, if_pos hm]
    by_cases hmem : m ∈ find_py_files t exclude
    · rw [if_pos hmem]
      exact (nodup_find_py_files t exclude hwf).not_mem_erase
    · rw [if_neg hmem]
      exact hmem
  · refine ⟨[CEvent.cleanDir inter, CEvent.cleanDir dist,
      CEvent.runCython (compileTargets t (some m) exclude)],
      [CEvent.copyData (data.getD [])], by rw [hev]; rfl, ?_⟩
    intro e he T
    rw [List.mem_singleton] at he
    subst he
    simp

/-- Witness for c9_entry_not_compiled: in the spec's scenario the entry file
a.py is not among the compiled sources. -/
theorem c9_entry_not_compiled_witness :
    ("a.py".data) ∉
      (compileTargets exTree3 (some ("a.py".data)) [("skip".data)]).map Prod.snd :=
  (c9_entry_not_compiled exTree3 none [("skip".data)] ("a.py".data)
    ("bi".data) ("bd".data) (by decide) (by decide)).1
    (compileTargets exTree3 (some ("a.py".data)) [("skip".data)]) (by decide)
